import Mathlib

/-!
Shallow embedding of the metrictank request structure (`req.go`) and of the
definition cache subsystem (`defcache`): its identity map, pattern-index id
allocation, backfill loop and durable-store write-through policy, together
with proofs about the claims of the specification.

The sequential behaviour of each operation is embedded directly from the
source.  For the concurrency claims, each `Add` call is split into the two
atomic sections the source delimits with the reader/writer lock: the
read-locked observation and the write-locked re-check-and-mutate section;
an execution of n concurrent calls is an arbitrary interleaving of these
sections, well-formed when every call observes before it re-checks.
-/

namespace MetricTank

/-- Consolidator embeds `consolidation.Consolidator`, the aggregation-method
enum carried opaquely by a request; its concrete values are irrelevant to the
cache, so it is embedded as a bare natural number. -/
abbrev Consolidator := Nat

/-- Req mirrors the Go struct `Req` of req.go: six fields set at
construction time and five planning fields that are set later by a
downstream stage.  The Go `uint32` fields are embedded as `Nat` (reduced
modulo 2^32 where the code does wrapping arithmetic); `archive` is a Go
`int`, embedded as `Int`. -/
structure Req where
  key : String
  «from» : Nat
  «to» : Nat
  minPoints : Nat
  maxPoints : Nat
  consolidator : Consolidator
  archive : Int
  rawInterval : Nat
  archInterval : Nat
  outInterval : Nat
  aggNum : Nat
  deriving DecidableEq, Repr

/-- NewReq mirrors `NewReq` of req.go: the six request fields are taken from
the arguments, `archive` is initialised to `-2` and the four planning fields
to `0` (all marked "supposed to be updated still" in the source). -/
def NewReq (key : String) (f t minPoints maxPoints : Nat) (consolidator : Consolidator) : Req :=
  { key := key
    «from» := f
    «to» := t
    minPoints := minPoints
    maxPoints := maxPoints
    consolidator := consolidator
    archive := -2
    rawInterval := 0
    archInterval := 0
    outInterval := 0
    aggNum := 0 }

/-- Reduction modulo 2^32, the value set of Go's `uint32`. -/
def u32 (a : Nat) : Nat := a % 4294967296

/-- Go `uint32` subtraction `a - b`: wraparound arithmetic modulo 2^32. -/
def u32sub (a b : Nat) : Nat := u32 (u32 a + 4294967296 - u32 b)

/-- spanSeconds is the `span:%ds` value computed by the `String` method of
req.go: the `uint32` expression `r.to - r.from - 1`. -/
def Req.spanSeconds (r : Req) : Nat := u32sub (u32sub r.«to» r.«from») 1

/-- MetricDefinition embeds `schema.MetricDefinition` (its package is not part
of this repository).  Modelled from the spec: one record per distinct observed
series, with external id (stable hash), tenant/organization id, hierarchical
name, and last-update timestamp in epoch seconds (a Go `int64`, embedded as
`Int`); the remaining series metadata is not touched by this core. -/
structure MetricDefinition where
  Id : String
  OrgId : Int
  Name : String
  LastUpdate : Int
  deriving DecidableEq, Repr, Inhabited

/-- MetricData embeds the incoming data point `schema.MetricData` (its package
is not part of this repository).  Modelled from the spec: the fields the cache
reads are the external id, tenant id, name and timestamp. -/
structure MetricData where
  Id : String
  OrgId : Int
  Name : String
  Time : Int
  deriving DecidableEq, Repr

/-- MetricDefinitionFromMetricData embeds
`schema.MetricDefinitionFromMetricData` (not part of this repository).
Modelled from the spec: (re)building a Definition from a data point copies the
external id, tenant and name and sets the last-update timestamp to the data
point's timestamp. -/
def MetricDefinitionFromMetricData (m : MetricData) : MetricDefinition :=
  { Id := m.Id, OrgId := m.OrgId, Name := m.Name, LastUpdate := m.Time }

/-- Idx embeds the Pattern Index `idx.Idx` (its package is not part of this
repository), restricted to what the cache calls: id allocation and reference
counting.  Modelled from the spec: `pairs` records each (tenant, name) pair
with its assigned identifier, `nextId` is the next monotonically increasing
identifier, and `refs` logs the `AddRef` calls.  The trigram/match machinery
is not needed by any claim. -/
structure Idx where
  pairs : List ((Int × String) × Nat)
  nextId : Nat
  refs : List (Int × Nat)
  deriving DecidableEq, Repr

/-- Lookup of a (tenant, name) pair in the Pattern Index's assignment list. -/
def lookupPair : List ((Int × String) × Nat) → Int × String → Option Nat
  | [], _ => none
  | (k, v) :: rest, q => if k = q then some v else lookupPair rest q

/-- GetOrAdd embeds `idx.Idx.GetOrAdd`.  Modelled from the spec: idempotent;
it returns the existing id if (tenant, name) was seen before, otherwise it
allocates the next monotonically increasing id for the pair. -/
def Idx.GetOrAdd (ix : Idx) (tenant : Int) (name : String) : Nat × Idx :=
  match lookupPair ix.pairs (tenant, name) with
  | some id => (id, ix)
  | none =>
    (ix.nextId,
     { ix with pairs := ix.pairs ++ [((tenant, name), ix.nextId)], nextId := ix.nextId + 1 })

/-- AddRef embeds `idx.Idx.AddRef`.  Modelled from the spec: it records that
the id is live for the tenant, cumulatively, to weight pruning decisions. -/
def Idx.AddRef (ix : Idx) (tenant : Int) (id : Nat) : Idx :=
  { ix with refs := ix.refs ++ [(tenant, id)] }

/-- DefCache mirrors the struct `DefCache` of the defcache source: the
Definition Store `defs` (append-only, index-addressed), the Identity Map
`ById` (Go map from external id to integer id, embedded as an association
list) and the Pattern Index `ByKey`.  The durable store handle `defsStore`
is threaded separately as an explicit success flag on each write. -/
structure DefCache where
  defs : List MetricDefinition
  ById : List (String × Nat)
  ByKey : Idx
  deriving DecidableEq, Repr

/-- The empty cache, as built by `New` before `Backfill` runs. -/
def DefCache.empty : DefCache := { defs := [], ById := [], ByKey := ⟨[], 0, []⟩ }

/-- Lookup in the Identity Map, i.e. the read `dc.ById[id]` of a Go map. -/
def lookupId : List (String × Nat) → String → Option Nat
  | [], _ => none
  | (k, v) :: rest, q => if k = q then some v else lookupId rest q

/-- Insertion into the Identity Map, i.e. the write `dc.ById[id] = v` of a Go
map: replaces the binding if the key is present, appends it otherwise. -/
def insertId : List (String × Nat) → String → Nat → List (String × Nat)
  | [], k, v => [(k, v)]
  | (k', v') :: rest, k, v =>
    if k' = k then (k, v) :: rest else (k', v') :: insertId rest k v

/-- Stats embeds the two write-through counters `metricsToEsOK` and
`metricsToEsFail` of the defcache source; the timing histograms are pure
telemetry and are not modelled. -/
structure Stats where
  metricsToEsOK : Nat
  metricsToEsFail : Nat
  deriving DecidableEq, Repr

/-- addToES mirrors `DefCache.addToES`: it hands the definition to the durable
store's bulk indexer and only counts the outcome — an error is logged and
counted, never propagated.  The store's success or failure is an input
(`storeOk`), since the store itself is external. -/
def addToES (st : Stats) (storeOk : Bool) (_mdef : MetricDefinition) : Stats :=
  if storeOk then { st with metricsToEsOK := st.metricsToEsOK + 1 }
  else { st with metricsToEsFail := st.metricsToEsFail + 1 }

/-- addDef mirrors the loop body of the `add` closure inside
`DefCache.Backfill`: get-or-add the (tenant, name) pair, add a reference,
register the external id in the Identity Map and append the definition to the
Definition Store. -/
def addDef (dc : DefCache) (d : MetricDefinition) : DefCache :=
  let r := dc.ByKey.GetOrAdd d.OrgId d.Name
  { defs := dc.defs ++ [d]
    ById := insertId dc.ById d.Id r.1
    ByKey := (r.2).AddRef d.OrgId r.1 }

/-- addBatch mirrors the `add` closure inside `DefCache.Backfill`, applied to
one fetched page (the `if len(met) > 0` guard around the loop has no effect on
the resulting state). -/
def addBatch (dc : DefCache) (met : List MetricDefinition) : DefCache :=
  met.foldl addDef dc

/-- Page models one response of the paginated durable-store fetch
`defsStore.GetMetrics`: the definitions of the page, whether a non-empty
scroll id announces further pages, and whether the fetch itself errored. -/
structure Page where
  defs : List MetricDefinition
  more : Bool
  err : Bool
  deriving DecidableEq, Repr

/-- Backfill mirrors `DefCache.Backfill`, with the durable store's successive
page responses as input: an errored fetch is logged and aborts the remaining
pagination without adding that page; otherwise the page is added and the scan
continues while the scroll id is non-empty. -/
def DefCache.Backfill (dc : DefCache) : List Page → DefCache
  | [] => dc
  | p :: rest =>
    if p.err then dc
    else
      let dc2 := addBatch dc p.defs
      if p.more then DefCache.Backfill dc2 rest else dc2

/-- defAt is the Definition Store read `dc.defs[id]`; every id handed out by
the cache is in range, so the out-of-range default is never reached in a
reachable state. -/
def defAt (l : List MetricDefinition) (i : Nat) : MetricDefinition :=
  l.getD i default

/-- addKnownLocked mirrors the exclusive-lock section of `DefCache.Add`'s
known-id path: re-read the stored definition, re-check staleness against the
call's timestamp, and only if still stale write through to the durable store
and replace the stored definition in place. -/
def addKnownLocked (dc : DefCache) (st : Stats) (storeOk : Bool) (id : Nat)
    (mdef : MetricDefinition) (t : Int) : DefCache × Stats :=
  let old := defAt dc.defs id
  if old.LastUpdate < t - 21600 then
    ({ dc with defs := dc.defs.set id mdef }, addToES st storeOk mdef)
  else (dc, st)

/-- addUnknownLocked mirrors the exclusive-lock section of `DefCache.Add`'s
unknown-id path: re-check the Identity Map (another caller may have inserted
the id first) and abandon if found; otherwise write through to the durable
store, allocate an integer id, add the tenant/name reference, register the
external id and append the definition to the Definition Store. -/
def addUnknownLocked (dc : DefCache) (st : Stats) (storeOk : Bool)
    (mdef : MetricDefinition) : DefCache × Stats :=
  match lookupId dc.ById mdef.Id with
  | some _ => (dc, st)
  | none =>
    let st2 := addToES st storeOk mdef
    let r := dc.ByKey.GetOrAdd mdef.OrgId mdef.Name
    ({ defs := dc.defs ++ [mdef]
       ById := insertId dc.ById mdef.Id r.1
       ByKey := (r.2).AddRef mdef.OrgId r.1 }, st2)

/-- Add mirrors `DefCache.Add` run without interference from other callers
(the concurrent interleavings are modelled separately below): the read-locked
Identity Map lookup selects the known-id path (staleness check against the
stored definition's last update, then the locked re-check-and-refresh) or the
unknown-id path (build the candidate definition, then the locked
re-check-and-insert). -/
def DefCache.Add (dc : DefCache) (st : Stats) (storeOk : Bool) (m : MetricData) :
    DefCache × Stats :=
  match lookupId dc.ById m.Id with
  | some id =>
    let mdef := defAt dc.defs id
    if mdef.LastUpdate < m.Time - 21600 then
      addKnownLocked dc st storeOk id (MetricDefinitionFromMetricData m) m.Time
    else (dc, st)
  | none => addUnknownLocked dc st storeOk (MetricDefinitionFromMetricData m)

/-- Ev is one atomic lock-delimited section of a concurrent `Add` call `i`:
`read i` is the read-locked observation of the shared state, `lock i` the
write-locked re-check-and-mutate section.  An execution of n concurrent
calls is an arbitrary interleaving of these sections. -/
inductive Ev where
  | read (i : Nat)
  | lock (i : Nat)
  deriving DecidableEq, Repr

/-- Phase tracks how far a concurrent call has progressed: it has not run
yet, it has performed its read-locked observation, or it has also performed
its write-locked section. -/
inductive Phase where
  | notStarted
  | readDone
  | finished
  deriving DecidableEq, Repr

/-- Pointwise update of a phase assignment. -/
def upd (f : Nat → Phase) (i : Nat) (p : Phase) : Nat → Phase :=
  fun j => if j = i then p else f j

/-- The initial phase assignment: no call has run yet. -/
def phase0 : Nat → Phase := fun _ => Phase.notStarted

/-- Wf characterises the well-formed interleavings of n concurrent `Add`
calls: every event belongs to a call below n, each call performs its
read-locked observation exactly once and before its single write-locked
section — exactly the order the source code forces on every caller. -/
def Wf (n : Nat) : (Nat → Phase) → List Ev → Prop
  | _, [] => True
  | f, Ev.read i :: s => i < n ∧ f i = Phase.notStarted ∧ Wf n (upd f i Phase.readDone) s
  | f, Ev.lock i :: s => i < n ∧ f i = Phase.readDone ∧ Wf n (upd f i Phase.finished) s

/-- RefreshState is the shared state relevant to concurrent known-id `Add`
calls racing on one Definition Store slot: the stored definition's last-update
timestamp, the number of write-throughs performed so far, and the set of
calls whose read-locked staleness check passed (those proceed to the
write-locked re-check). -/
structure RefreshState where
  stored : Int
  writes : Nat
  trig : List Nat
  deriving DecidableEq, Repr

/-- refreshStep executes one atomic section of the known-id path of
`DefCache.Add`, for a family of calls with timestamps `ts`: the read section
marks the call as triggered when the stored value is stale for its timestamp
(`LastUpdate < Time - 21600`); the write-locked section of a triggered call
re-checks staleness against the current stored value and, only if still
stale, writes through and replaces the stored definition (whose last-update
becomes the call's timestamp). -/
def refreshStep (ts : Nat → Int) (st : RefreshState) : Ev → RefreshState
  | Ev.read i =>
    if st.stored < ts i - 21600 then { st with trig := i :: st.trig } else st
  | Ev.lock i =>
    if i ∈ st.trig ∧ st.stored < ts i - 21600 then
      { stored := ts i, writes := st.writes + 1, trig := st.trig }
    else st

/-- refreshRun executes an interleaving of known-id `Add` sections. -/
def refreshRun (ts : Nat → Int) (s : List Ev) (st : RefreshState) : RefreshState :=
  s.foldl (refreshStep ts) st

/-- RefreshInv is the inductive invariant of the refresh race: either no
write-through has happened, the stored value is still the original `s0` and
every call past its read section is marked triggered, or at least one
write-through has happened and the stored value is the timestamp of one of
the calls. -/
def RefreshInv (n : Nat) (ts : Nat → Int) (s0 : Int) (f : Nat → Phase)
    (st : RefreshState) : Prop :=
  (st.writes = 0 ∧ st.stored = s0 ∧ ∀ i, i < n → f i = Phase.readDone → i ∈ st.trig)
  ∨ (1 ≤ st.writes ∧ ∃ i, i < n ∧ st.stored = ts i)

/-- CreateState is the shared state relevant to concurrent `Add` calls
carrying the same previously-unseen external id: whether the id has been
inserted into the Identity Map, how many creation write-throughs have been
performed, and which calls observed the id as absent during their read
section (those run the unknown-id locked section; the others take the
known-id path, which never performs the creation write). -/
structure CreateState where
  present : Bool
  creates : Nat
  sawAbsent : List Nat
  deriving DecidableEq, Repr

/-- createStep executes one atomic section of `DefCache.Add` for calls racing
to create the same new external id: a read section records whether the id
was still absent; the locked section of a call that saw it absent re-checks
the Identity Map and only when the id is still absent writes through and
registers it (the loser of the race abandons silently). -/
def createStep (st : CreateState) : Ev → CreateState
  | Ev.read i =>
    if st.present then st else { st with sawAbsent := i :: st.sawAbsent }
  | Ev.lock i =>
    if i ∈ st.sawAbsent ∧ st.present = false then
      { present := true, creates := st.creates + 1, sawAbsent := st.sawAbsent }
    else st

/-- createRun executes an interleaving of same-new-id `Add` sections. -/
def createRun (s : List Ev) (st : CreateState) : CreateState :=
  s.foldl createStep st

/-- CreateInv is the inductive invariant of the creation race: either the id
is still absent, no creation write-through has happened and every call past
its read section saw the id absent, or the id is present and exactly one
creation write-through has happened. -/
def CreateInv (f : Nat → Phase) (st : CreateState) : Prop :=
  (st.present = false ∧ st.creates = 0 ∧ ∀ i, f i = Phase.readDone → i ∈ st.sawAbsent)
  ∨ (st.present = true ∧ st.creates = 1)

/-- Three ingest data points reaching `Add`: two distinct external ids with
the same (tenant, name) pair, then a third id with a fresh name. -/
def c1metricA : MetricData := ⟨"a", 1, "x", 1000⟩

/-- Second data point of the C1 scenario: new external id, already-indexed
(tenant, name) pair. -/
def c1metricB : MetricData := ⟨"b", 1, "x", 1000⟩

/-- Third data point of the C1 scenario: new external id, fresh name. -/
def c1metricC : MetricData := ⟨"c", 1, "y", 1000⟩

/-- The cache state after the three `Add` calls of the C1 scenario. -/
def c1cache : DefCache :=
  (((DefCache.empty.Add ⟨0, 0⟩ true c1metricA).1.Add ⟨1, 0⟩ true c1metricB).1.Add
    ⟨2, 0⟩ true c1metricC).1

/-- Timestamps of two concurrent refreshing calls more than the freshness
window apart: call 0 at 100000, call 1 at 30000, against a value stored at
0. -/
def c2ts : Nat → Int := fun i => if i = 0 then 100000 else 30000

/-- An interleaving where both calls observe the original stale value and
call 1 wins the lock first: call 0 then still sees a value stale for its own
timestamp and writes a second time. -/
def c2schedA : List Ev := [Ev.read 0, Ev.read 1, Ev.lock 1, Ev.lock 0]

/-- Timestamps of two concurrent refreshing calls less than the freshness
window apart: call 0 at 30000, call 1 at 40000, against a value stored at
0. -/
def c2tsB : Nat → Int := fun i => if i = 0 then 30000 else 40000

/-- An interleaving where both calls observe the original stale value and
call 0 wins the lock first: call 1's re-check then fails, leaving the stored
last-update below the maximum observed timestamp. -/
def c2schedB : List Ev := [Ev.read 0, Ev.read 1, Ev.lock 0, Ev.lock 1]

/-- Timestamps for the C2 witness run: both calls at 30000 against a value
stored at 0. -/
def c2wts : Nat → Int := fun _ => 30000

/-- A sequential interleaving of the two C2 witness calls. -/
def c2wsched : List Ev := [Ev.read 0, Ev.lock 0, Ev.read 1, Ev.lock 1]

/-- A cache holding external id "a" with last-update 0, for the C3 witness. -/
def c3cache : DefCache := (DefCache.empty.Add ⟨0, 0⟩ true ⟨"a", 1, "x", 0⟩).1

/-- A data point exactly at the 6-hour boundary of the C3 witness cache. -/
def c3metric : MetricData := ⟨"a", 1, "x", 21600⟩

/-- The cache of the C4 witness scenario: id "abc" added at time 1000, then a
second `Add` at 1100 (within the window, a no-op). -/
def c4cache : DefCache :=
  ((DefCache.empty.Add ⟨0, 0⟩ true ⟨"abc", 1, "host.cpu", 1000⟩).1.Add
    ⟨1, 0⟩ true ⟨"abc", 1, "host.cpu", 1100⟩).1

/-- The third data point of the C4 witness scenario, more than 6 hours after
the stored value. -/
def c4metric : MetricData := ⟨"abc", 1, "host.cpu", 31000⟩

/-- A candidate definition for the C5 witness. -/
def c5def : MetricDefinition := ⟨"abc", 1, "host.cpu", 500⟩

/-- A cache already containing external id "abc", for the C5 witness's
abandon case. -/
def c5cache : DefCache := (DefCache.empty.Add ⟨0, 0⟩ true ⟨"abc", 1, "host.cpu", 500⟩).1

/-- A sequential interleaving of two calls for the C6 witness. -/
def c6sched : List Ev := [Ev.read 0, Ev.lock 0, Ev.read 1, Ev.lock 1]

/-- Definitions returned by the durable store in the C7 witness pages. -/
def c7d1 : MetricDefinition := ⟨"d1", 1, "a.b", 10⟩

/-- Second definition of the C7 witness pages. -/
def c7d2 : MetricDefinition := ⟨"d2", 1, "a.c", 20⟩

/-- Third definition of the C7 witness pages, lost to the fetch error. -/
def c7d3 : MetricDefinition := ⟨"d3", 1, "a.d", 30⟩

/-- The two successfully fetched pages of the C7 witness. -/
def c7good : List Page := [⟨[c7d1], true, false⟩, ⟨[c7d2], true, false⟩]

/-- The errored fetch of the C7 witness. -/
def c7bad : Page := ⟨[c7d3], true, true⟩

/-- Pages that would have followed the error in the C7 witness. -/
def c7rest : List Page := [⟨[c7d3], false, false⟩]

/-- Reading back the slot just written: `List.set` followed by `defAt` at an
in-range index returns the new value. -/
theorem defAt_set_self (l : List MetricDefinition) (i : Nat) (v : MetricDefinition)
    (h : i < l.length) : defAt (l.set i v) i = v := by
  simp [defAt, List.getD_eq_getElem?_getD, List.getElem?_set, h]

/-- A Go-map write is visible to an immediate read of the same key. -/
theorem lookupId_insertId_self (l : List (String × Nat)) (k : String) (v : Nat) :
    lookupId (insertId l k v) k = some v := by
  induction l with
  | nil => simp [insertId, lookupId]
  | cons p rest ih =>
    by_cases h : p.1 = k
    · simp [insertId, h, lookupId]
    · simp [insertId, h, lookupId, ih]

/-- Unfolding of `Wf` at a read event. -/
theorem Wf_read (n : Nat) (f : Nat → Phase) (i : Nat) (s : List Ev) :
    Wf n f (Ev.read i :: s)
      ↔ i < n ∧ f i = Phase.notStarted ∧ Wf n (upd f i Phase.readDone) s := Iff.rfl

/-- Unfolding of `Wf` at a lock event. -/
theorem Wf_lock (n : Nat) (f : Nat → Phase) (i : Nat) (s : List Ev) :
    Wf n f (Ev.lock i :: s)
      ↔ i < n ∧ f i = Phase.readDone ∧ Wf n (upd f i Phase.finished) s := Iff.rfl

/-- Unfolding of `refreshRun` one event at a time. -/
theorem refreshRun_cons (ts : Nat → Int) (e : Ev) (s : List Ev) (st : RefreshState) :
    refreshRun ts (e :: s) st = refreshRun ts s (refreshStep ts st e) := rfl

/-- No atomic section ever decreases the write-through count. -/
theorem refreshStep_writes_le (ts : Nat → Int) (st : RefreshState) (e : Ev) :
    st.writes ≤ (refreshStep ts st e).writes := by
  cases e <;> simp only [refreshStep] <;> split <;> simp

/-- The write-through count is monotone along any interleaving. -/
theorem refreshRun_writes_mono (ts : Nat → Int) (s : List Ev) :
    ∀ st : RefreshState, st.writes ≤ (refreshRun ts s st).writes := by
  induction s with
  | nil => intro st; exact Nat.le_refl _
  | cons e rest ih =>
    intro st
    exact Nat.le_trans (refreshStep_writes_le ts st e) (ih (refreshStep ts st e))

/-- A read section preserves the refresh-race invariant. -/
theorem refreshInv_read (n : Nat) (ts : Nat → Int) (s0 : Int) (f : Nat → Phase)
    (st : RefreshState) (i : Nat) (hi : i < n)
    (hts : ∀ j, j < n → s0 < ts j - 21600)
    (hinv : RefreshInv n ts s0 f st) :
    RefreshInv n ts s0 (upd f i Phase.readDone) (refreshStep ts st (Ev.read i)) := by
  cases hinv with
  | inl h =>
    obtain ⟨hw, hs, htrig⟩ := h
    have hc : st.stored < ts i - 21600 := hs ▸ hts i hi
    left
    simp only [refreshStep, if_pos hc]
    refine ⟨hw, hs, ?_⟩
    intro j hj hf
    by_cases hji : j = i
    · subst hji; exact List.mem_cons_self _ _
    · have : f j = Phase.readDone := by simpa [upd, hji] using hf
      exact List.mem_cons_of_mem _ (htrig j hj this)
  | inr h =>
    right
    simp only [refreshStep]
    split <;> simpa using h

/-- A lock section preserves the refresh-race invariant. -/
theorem refreshInv_lock (n : Nat) (ts : Nat → Int) (s0 : Int) (f : Nat → Phase)
    (st : RefreshState) (i : Nat) (hi : i < n) (hf : f i = Phase.readDone)
    (hts : ∀ j, j < n → s0 < ts j - 21600)
    (hinv : RefreshInv n ts s0 f st) :
    RefreshInv n ts s0 (upd f i Phase.finished) (refreshStep ts st (Ev.lock i)) := by
  cases hinv with
  | inl h =>
    obtain ⟨hw, hs, htrig⟩ := h
    have hmem : i ∈ st.trig := htrig i hi hf
    have hc : st.stored < ts i - 21600 := hs ▸ hts i hi
    right
    simp only [refreshStep, if_pos (And.intro hmem hc)]
    exact ⟨Nat.le_add_left 1 st.writes, i, hi, rfl⟩
  | inr h =>
    right
    obtain ⟨hw, k, hk, hst⟩ := h
    simp only [refreshStep]
    split
    · exact ⟨Nat.le_add_left _ _, i, hi, rfl⟩
    · exact ⟨hw, k, hk, hst⟩

/-- After a well-formed interleaving of refreshing calls, either nothing was
written and the stored value is the original, or at least one write-through
happened and the stored last-update is the timestamp of one of the calls. -/
theorem refreshRun_inv (n : Nat) (ts : Nat → Int) (s0 : Int)
    (hts : ∀ j, j < n → s0 < ts j - 21600) :
    ∀ (s : List Ev) (f : Nat → Phase) (st : RefreshState),
      Wf n f s → RefreshInv n ts s0 f st →
      ((refreshRun ts s st).writes = 0 ∧ (refreshRun ts s st).stored = s0)
      ∨ (1 ≤ (refreshRun ts s st).writes
          ∧ ∃ i, i < n ∧ (refreshRun ts s st).stored = ts i) := by
  intro s
  induction s with
  | nil =>
    intro f st _ hinv
    cases hinv with
    | inl h => exact Or.inl ⟨h.1, h.2.1⟩
    | inr h => exact Or.inr h
  | cons e rest ih =>
    intro f st hwf hinv
    cases e with
    | read i =>
      obtain ⟨hi, hf, hwf'⟩ := (Wf_read n f i rest).mp hwf
      rw [refreshRun_cons]
      exact ih _ _ hwf' (refreshInv_read n ts s0 f st i hi hts hinv)
    | lock i =>
      obtain ⟨hi, hf, hwf'⟩ := (Wf_lock n f i rest).mp hwf
      rw [refreshRun_cons]
      exact ih _ _ hwf' (refreshInv_lock n ts s0 f st i hi hf hts hinv)

/-- The first call to enter its write-locked section still observes the
original stale value and writes: any interleaving containing a lock event
performs at least one write-through. -/
theorem refreshRun_writes_pos (n : Nat) (ts : Nat → Int) (s0 : Int)
    (hts : ∀ j, j < n → s0 < ts j - 21600) :
    ∀ (s : List Ev) (f : Nat → Phase) (st : RefreshState),
      Wf n f s → RefreshInv n ts s0 f st → (∃ i, Ev.lock i ∈ s) →
      1 ≤ (refreshRun ts s st).writes := by
  intro s
  induction s with
  | nil =>
    intro f st _ _ hlock
    obtain ⟨i, hi⟩ := hlock
    exact absurd hi (List.not_mem_nil _)
  | cons e rest ih =>
    intro f st hwf hinv hlock
    by_cases hw : 1 ≤ st.writes
    · exact Nat.le_trans hw (refreshRun_writes_mono ts (e :: rest) st)
    · cases e with
      | read i =>
        obtain ⟨hi, hf, hwf'⟩ := (Wf_read n f i rest).mp hwf
        rw [refreshRun_cons]
        refine ih _ _ hwf' (refreshInv_read n ts s0 f st i hi hts hinv) ?_
        obtain ⟨j, hj⟩ := hlock
        cases List.mem_cons.mp hj with
        | inl h => exact absurd h (by simp)
        | inr h => exact ⟨j, h⟩
      | lock i =>
        obtain ⟨hi, hf, hwf'⟩ := (Wf_lock n f i rest).mp hwf
        cases hinv with
        | inl h =>
          obtain ⟨hw0, hs, htrig⟩ := h
          have hmem : i ∈ st.trig := htrig i hi hf
          have hc : st.stored < ts i - 21600 := hs ▸ hts i hi
          rw [refreshRun_cons]
          have hstep : (refreshStep ts st (Ev.lock i)).writes = st.writes + 1 := by
            simp only [refreshStep, if_pos (And.intro hmem hc)]
          calc 1 ≤ (refreshStep ts st (Ev.lock i)).writes := by omega
          _ ≤ (refreshRun ts rest (refreshStep ts st (Ev.lock i))).writes :=
              refreshRun_writes_mono ts rest _
        | inr h => exact absurd h.1 hw

/-- Unfolding of `createRun` one event at a time. -/
theorem createRun_cons (e : Ev) (s : List Ev) (st : CreateState) :
    createRun (e :: s) st = createRun s (createStep st e) := rfl

/-- Once the id is registered it stays registered, over one section. -/
theorem createStep_present_mono (st : CreateState) (e : Ev) (h : st.present = true) :
    (createStep st e).present = true := by
  cases e <;> simp only [createStep] <;> split <;> simp_all

/-- Once the id is registered it stays registered, over any interleaving. -/
theorem createRun_present_mono (s : List Ev) :
    ∀ st : CreateState, st.present = true → (createRun s st).present = true := by
  induction s with
  | nil => intro st h; exact h
  | cons e rest ih =>
    intro st h
    exact ih _ (createStep_present_mono st e h)

/-- A read section preserves the creation-race invariant. -/
theorem createInv_read (f : Nat → Phase) (st : CreateState) (i : Nat)
    (hinv : CreateInv f st) :
    CreateInv (upd f i Phase.readDone) (createStep st (Ev.read i)) := by
  cases hinv with
  | inl h =>
    obtain ⟨hp, hc, hsaw⟩ := h
    have hstep : createStep st (Ev.read i) = { st with sawAbsent := i :: st.sawAbsent } := by
      simp [createStep, hp]
    rw [hstep]
    left
    refine ⟨hp, hc, ?_⟩
    intro j hf
    by_cases hji : j = i
    · subst hji; exact List.mem_cons_self _ _
    · have : f j = Phase.readDone := by simpa [upd, hji] using hf
      exact List.mem_cons_of_mem _ (hsaw j this)
  | inr h =>
    have hstep : createStep st (Ev.read i) = st := by
      simp [createStep, h.1]
    rw [hstep]
    right
    exact h

/-- A lock section preserves the creation-race invariant. -/
theorem createInv_lock (f : Nat → Phase) (st : CreateState) (i : Nat)
    (hf : f i = Phase.readDone) (hinv : CreateInv f st) :
    CreateInv (upd f i Phase.finished) (createStep st (Ev.lock i)) := by
  cases hinv with
  | inl h =>
    obtain ⟨hp, hc, hsaw⟩ := h
    have hmem : i ∈ st.sawAbsent := hsaw i hf
    have hstep : createStep st (Ev.lock i)
        = { present := true, creates := st.creates + 1, sawAbsent := st.sawAbsent } := by
      simp [createStep, hmem, hp]
    rw [hstep]
    right
    exact ⟨rfl, by simp [hc]⟩
  | inr h =>
    have hstep : createStep st (Ev.lock i) = st := by
      simp [createStep, h.1]
    rw [hstep]
    right
    exact h

/-- After a well-formed interleaving of creating calls, either the id was
never registered and nothing was written, or it is registered and exactly one
creation write-through happened. -/
theorem createRun_inv :
    ∀ (s : List Ev) (n : Nat) (f : Nat → Phase) (st : CreateState),
      Wf n f s → CreateInv f st →
      ((createRun s st).present = false ∧ (createRun s st).creates = 0)
      ∨ ((createRun s st).present = true ∧ (createRun s st).creates = 1) := by
  intro s
  induction s with
  | nil =>
    intro n f st _ hinv
    cases hinv with
    | inl h => exact Or.inl ⟨h.1, h.2.1⟩
    | inr h => exact Or.inr h
  | cons e rest ih =>
    intro n f st hwf hinv
    cases e with
    | read i =>
      obtain ⟨hi, hf, hwf'⟩ := (Wf_read n f i rest).mp hwf
      rw [createRun_cons]
      exact ih n _ _ hwf' (createInv_read f st i hinv)
    | lock i =>
      obtain ⟨hi, hf, hwf'⟩ := (Wf_lock n f i rest).mp hwf
      rw [createRun_cons]
      exact ih n _ _ hwf' (createInv_lock f st i hf hinv)

/-- The first call to enter its write-locked section registers the id: any
interleaving containing a lock event ends with the id present. -/
theorem createRun_creates_pos :
    ∀ (s : List Ev) (n : Nat) (f : Nat → Phase) (st : CreateState),
      Wf n f s → CreateInv f st → (∃ i, Ev.lock i ∈ s) →
      (createRun s st).present = true := by
  intro s
  induction s with
  | nil =>
    intro n f st _ _ hlock
    obtain ⟨i, hi⟩ := hlock
    exact absurd hi (List.not_mem_nil _)
  | cons e rest ih =>
    intro n f st hwf hinv hlock
    by_cases hp : st.present = true
    · rw [createRun_cons]
      exact createRun_present_mono rest _ (createStep_present_mono st e hp)
    · cases e with
      | read i =>
        obtain ⟨hi, hf, hwf'⟩ := (Wf_read n f i rest).mp hwf
        rw [createRun_cons]
        refine ih n _ _ hwf' (createInv_read f st i hinv) ?_
        obtain ⟨j, hj⟩ := hlock
        cases List.mem_cons.mp hj with
        | inl h => exact absurd h (by simp)
        | inr h => exact ⟨j, h⟩
      | lock i =>
        obtain ⟨hi, hf, hwf'⟩ := (Wf_lock n f i rest).mp hwf
        cases hinv with
        | inl h =>
          obtain ⟨hp0, hc, hsaw⟩ := h
          have hmem : i ∈ st.sawAbsent := hsaw i hf
          rw [createRun_cons]
          refine createRun_present_mono rest _ ?_
          simp [createStep, hmem, hp0]
        | inr h => exact absurd h.1 hp

/-- C1: the position-equals-identifier invariant fails on a reachable state.
After `Add` of external id "a" (tenant 1, name "x"), then "b" (tenant 1,
same name "x"), then "c" (tenant 1, fresh name "y"), identifier 1 is the id
the Pattern Index allocated for name "y" and the Identity Map sends "c" to
1, yet Definition Store position 1 holds the definition named "x" — the
unknown-id path appends even when `GetOrAdd` returned an existing id, so the
append position drifts ahead of the id counter, contradicting the source's
own comment that `defs` "maps 1:1 with pos in this array". -/
theorem Add_breaks_position_id_invariant :
    lookupPair c1cache.ByKey.pairs (1, "y") = some 1
    ∧ lookupId c1cache.ById "c" = some 1
    ∧ (defAt c1cache.defs 1).Name = "x"
    ∧ ¬ (defAt c1cache.defs 1).Name = "y" :=
  ⟨rfl, rfl, rfl, by decide⟩

/-- C2, counterexample: under well-formed interleavings of concurrent stale
`Add` calls the claim "exactly one write-through, stored last-update is the
maximum observed timestamp" is false.  Schedule A (timestamps 100000 and
30000 against stored 0) performs two write-throughs; schedule B (timestamps
30000 and 40000) performs one write-through but leaves the stored
last-update at 30000, below the maximum 40000. -/
theorem Add_refresh_race_counterexample :
    (Wf 2 phase0 c2schedA ∧ (∀ i, i < 2 → (0 : Int) < c2ts i - 21600)
      ∧ (∀ i, i < 2 → Ev.lock i ∈ c2schedA)
      ∧ (refreshRun c2ts c2schedA ⟨0, 0, []⟩).writes = 2)
    ∧ (Wf 2 phase0 c2schedB ∧ (∀ i, i < 2 → (0 : Int) < c2tsB i - 21600)
      ∧ (∀ i, i < 2 → Ev.lock i ∈ c2schedB)
      ∧ (refreshRun c2tsB c2schedB ⟨0, 0, []⟩).writes = 1
      ∧ (refreshRun c2tsB c2schedB ⟨0, 0, []⟩).stored = 30000
      ∧ c2tsB 1 = 40000) := by
  refine ⟨⟨?_, by decide, by decide, by decide⟩,
    ⟨?_, by decide, by decide, by decide, by decide, by decide⟩⟩
  · simp [Wf, upd, phase0, c2schedA]
  · simp [Wf, upd, phase0, c2schedB]

/-- C2, amended: for any well-formed interleaving of n concurrent `Add`
calls on an existing id, all of whose timestamps exceed the 6-hour freshness
window of the originally stored value, at least one write-through occurs
(two calls can each write when their timestamps are more than the window
apart), and the stored last-update afterwards is the timestamp of one of
the calls — not necessarily the maximum. -/
theorem Add_refresh_race_bounds (n : Nat) (ts : Nat → Int) (s0 : Int) (s : List Ev)
    (hwf : Wf n phase0 s)
    (hts : ∀ i, i < n → s0 < ts i - 21600)
    (hn : 0 < n)
    (hcomplete : ∀ i, i < n → Ev.lock i ∈ s) :
    1 ≤ (refreshRun ts s ⟨s0, 0, []⟩).writes
    ∧ ∃ i, i < n ∧ (refreshRun ts s ⟨s0, 0, []⟩).stored = ts i := by
  have hinv0 : RefreshInv n ts s0 phase0 ⟨s0, 0, []⟩ := by
    left
    refine ⟨rfl, rfl, ?_⟩
    intro i _ h
    simp [phase0] at h
  have hpos := refreshRun_writes_pos n ts s0 hts s phase0 ⟨s0, 0, []⟩ hwf hinv0
    ⟨0, hcomplete 0 hn⟩
  have hcases := refreshRun_inv n ts s0 hts s phase0 ⟨s0, 0, []⟩ hwf hinv0
  cases hcases with
  | inl h => omega
  | inr h => exact ⟨hpos, h.2⟩

/-- Witness for the amended C2 at two calls with timestamp 30000 against a
value stored at 0, interleaved sequentially. -/
theorem Add_refresh_race_bounds_w :
    1 ≤ (refreshRun c2wts c2wsched ⟨0, 0, []⟩).writes
    ∧ ∃ i, i < 2 ∧ (refreshRun c2wts c2wsched ⟨0, 0, []⟩).stored = c2wts i :=
  Add_refresh_race_bounds 2 c2wts 0 c2wsched (by simp [Wf, upd, phase0, c2wsched])
    (by decide) (by decide) (by decide)

/-- C3: an `Add` for a known external id whose stored definition is still
within the 6-hour freshness window of the call's timestamp (last-update at
least `Time - 21600`, so also exactly at the boundary) performs no
write-through and leaves the Identity Map, Definition Store, Pattern Index
and counters completely unchanged. -/
theorem Add_fresh_noop (dc : DefCache) (st : Stats) (storeOk : Bool) (m : MetricData)
    (id : Nat)
    (h1 : lookupId dc.ById m.Id = some id)
    (h2 : ¬ (defAt dc.defs id).LastUpdate < m.Time - 21600) :
    DefCache.Add dc st storeOk m = (dc, st) := by
  simp [DefCache.Add, h1, h2]

/-- Witness for C3: a data point exactly 21600 seconds after the stored
last-update leaves the cache and the counters untouched. -/
theorem Add_fresh_noop_w :
    DefCache.Add c3cache ⟨1, 0⟩ true c3metric = (c3cache, ⟨1, 0⟩) :=
  Add_fresh_noop c3cache ⟨1, 0⟩ true c3metric 0 rfl (by decide)

/-- C4: an `Add` for a known external id whose timestamp exceeds the stored
last-update by more than 21600 seconds rebuilds the definition from the
metric data, re-checks staleness under the exclusive lock, performs exactly
one write-through, and replaces the stored definition in the same slot, its
last-update becoming the call's timestamp. -/
theorem Add_stale_refresh (dc : DefCache) (st : Stats) (storeOk : Bool) (m : MetricData)
    (id : Nat)
    (h1 : lookupId dc.ById m.Id = some id)
    (h2 : (defAt dc.defs id).LastUpdate < m.Time - 21600)
    (h3 : id < dc.defs.length) :
    DefCache.Add dc st storeOk m
      = ({ dc with defs := dc.defs.set id (MetricDefinitionFromMetricData m) },
         addToES st storeOk (MetricDefinitionFromMetricData m))
    ∧ (defAt (DefCache.Add dc st storeOk m).1.defs id).LastUpdate = m.Time
    ∧ (DefCache.Add dc st storeOk m).2.metricsToEsOK
        + (DefCache.Add dc st storeOk m).2.metricsToEsFail
        = st.metricsToEsOK + st.metricsToEsFail + 1 := by
  have he : DefCache.Add dc st storeOk m
      = ({ dc with defs := dc.defs.set id (MetricDefinitionFromMetricData m) },
         addToES st storeOk (MetricDefinitionFromMetricData m)) := by
    simp [DefCache.Add, h1, h2, addKnownLocked]
  refine ⟨he, ?_, ?_⟩
  · rw [he]
    simpa [MetricDefinitionFromMetricData] using
      congrArg MetricDefinition.LastUpdate
        (defAt_set_self dc.defs id (MetricDefinitionFromMetricData m) h3)
  · rw [he]
    cases storeOk <;> simp [addToES] <;> omega

/-- Witness for C4, the spec's scenario: after creation at time 1000 and a
fresh no-op at 1100, a third `Add` at 31000 (> 6h later) sets the stored
last-update to 31000 with exactly one additional write-through. -/
theorem Add_stale_refresh_w :
    (defAt (DefCache.Add c4cache ⟨1, 0⟩ true c4metric).1.defs 0).LastUpdate = 31000
    ∧ (DefCache.Add c4cache ⟨1, 0⟩ true c4metric).2.metricsToEsOK
        + (DefCache.Add c4cache ⟨1, 0⟩ true c4metric).2.metricsToEsFail = 2 :=
  ⟨(Add_stale_refresh c4cache ⟨1, 0⟩ true c4metric 0 rfl (by decide) (by decide)).2.1,
   (Add_stale_refresh c4cache ⟨1, 0⟩ true c4metric 0 rfl (by decide) (by decide)).2.2⟩

/-- C5: the exclusive-lock section of `Add`'s unknown-id path.  If the
external id is absent when the lock is held, it writes through to the
durable store, allocates an integer id via `GetOrAdd`, adds the tenant/name
reference, registers the external id in the Identity Map and appends the
definition to the Definition Store; if the re-check finds the id already
present, it returns with every component of the state unchanged. -/
theorem addUnknownLocked_spec (dc : DefCache) (st : Stats) (storeOk : Bool)
    (mdef : MetricDefinition) :
    (lookupId dc.ById mdef.Id = none →
      (addUnknownLocked dc st storeOk mdef).1.defs = dc.defs ++ [mdef]
      ∧ lookupId (addUnknownLocked dc st storeOk mdef).1.ById mdef.Id
          = some (dc.ByKey.GetOrAdd mdef.OrgId mdef.Name).1
      ∧ (addUnknownLocked dc st storeOk mdef).1.ByKey
          = ((dc.ByKey.GetOrAdd mdef.OrgId mdef.Name).2).AddRef mdef.OrgId
              (dc.ByKey.GetOrAdd mdef.OrgId mdef.Name).1
      ∧ (addUnknownLocked dc st storeOk mdef).2 = addToES st storeOk mdef)
    ∧ (∀ j, lookupId dc.ById mdef.Id = some j →
        addUnknownLocked dc st storeOk mdef = (dc, st)) := by
  constructor
  · intro h
    simp [addUnknownLocked, h, lookupId_insertId_self]
  · intro j h
    simp [addUnknownLocked, h]

/-- Witness for C5: inserting into the empty cache appends the definition,
and re-checking against a cache that already holds the id is a no-op. -/
theorem addUnknownLocked_spec_w :
    (addUnknownLocked DefCache.empty ⟨0, 0⟩ true c5def).1.defs = [c5def]
    ∧ addUnknownLocked c5cache ⟨1, 0⟩ true c5def = (c5cache, ⟨1, 0⟩) :=
  ⟨((addUnknownLocked_spec DefCache.empty ⟨0, 0⟩ true c5def).1 rfl).1,
   (addUnknownLocked_spec c5cache ⟨1, 0⟩ true c5def).2 0 rfl⟩

/-- C6: for any well-formed interleaving of n concurrent `Add` calls
carrying the same previously-unseen external id, the creation write-through
to the durable store happens exactly once: the first call through the
exclusive lock writes and registers the id, every other call's re-check
finds it present and abandons. -/
theorem Add_new_id_single_create (n : Nat) (s : List Ev)
    (hwf : Wf n phase0 s) (hn : 0 < n)
    (hcomplete : ∀ i, i < n → Ev.lock i ∈ s) :
    (createRun s ⟨false, 0, []⟩).creates = 1 := by
  have hinv0 : CreateInv phase0 ⟨false, 0, []⟩ := by
    left
    refine ⟨rfl, rfl, ?_⟩
    intro i h
    simp [phase0] at h
  have hpres := createRun_creates_pos s n phase0 ⟨false, 0, []⟩ hwf hinv0
    ⟨0, hcomplete 0 hn⟩
  cases createRun_inv s n phase0 ⟨false, 0, []⟩ hwf hinv0 with
  | inl h => rw [hpres] at h; exact absurd h.1 (by simp)
  | inr h => exact h.2

/-- Witness for C6 at two sequentially interleaved calls on the same new
id: exactly one creation write-through. -/
theorem Add_new_id_single_create_w :
    (createRun c6sched ⟨false, 0, []⟩).creates = 1 :=
  Add_new_id_single_create 2 c6sched (by simp [Wf, upd, phase0, c6sched]) (by decide)
    (by decide)

/-- C7: when the paginated fetch errors on some page, `Backfill` stops
there: the resulting cache is exactly the fold of the successfully fetched
pages before the error, independent of the erroring page's content and of
every page that would have followed — partial state, no rollback, no
retry. -/
theorem Backfill_error_partial (dc : DefCache) (good : List Page) (bad : Page)
    (rest : List Page)
    (hgood : ∀ p ∈ good, p.err = false ∧ p.more = true)
    (hbad : bad.err = true) :
    DefCache.Backfill dc (good ++ bad :: rest)
      = good.foldl (fun acc p => addBatch acc p.defs) dc := by
  revert hgood
  induction good generalizing dc with
  | nil =>
    intro _
    simp [DefCache.Backfill, hbad]
  | cons p ps ih =>
    intro hgood
    have hp := hgood p (by simp)
    simp only [List.cons_append, DefCache.Backfill, hp.1, hp.2, List.foldl_cons,
      Bool.false_eq_true, if_false, if_true]
    exact ih (addBatch dc p.defs) (fun q hq => hgood q (by simp [hq]))

/-- Witness for C7: two good pages, an erroring third fetch, and a page
after it — the cache holds exactly the two good pages' definitions. -/
theorem Backfill_error_partial_w :
    DefCache.Backfill DefCache.empty (c7good ++ c7bad :: c7rest)
      = addBatch (addBatch DefCache.empty [c7d1]) [c7d2] :=
  Backfill_error_partial DefCache.empty c7good c7bad c7rest (by decide) rfl

/-- C8: a failing durable-store write never changes what `Add` does to the
in-memory cache — the resulting cache state is identical to the success
case — and the failure is only counted: the total number of counted
write-through outcomes is the same as in the success case. -/
theorem Add_cache_independent_of_store (dc : DefCache) (st : Stats) (storeOk : Bool)
    (m : MetricData) :
    (DefCache.Add dc st storeOk m).1 = (DefCache.Add dc st true m).1
    ∧ (DefCache.Add dc st storeOk m).2.metricsToEsOK
        + (DefCache.Add dc st storeOk m).2.metricsToEsFail
        = (DefCache.Add dc st true m).2.metricsToEsOK
        + (DefCache.Add dc st true m).2.metricsToEsFail := by
  have hm : (MetricDefinitionFromMetricData m).Id = m.Id := rfl
  refine ⟨?_, ?_⟩ <;>
    (cases h : lookupId dc.ById m.Id with
     | none =>
       cases storeOk <;> simp [DefCache.Add, addUnknownLocked, hm, h, addToES] <;> omega
     | some id =>
       by_cases h2 : (defAt dc.defs id).LastUpdate < m.Time - 21600
       · cases storeOk <;>
           simp [DefCache.Add, h, h2, addKnownLocked, addToES] <;> omega
       · simp [DefCache.Add, h, h2])

/-- C9: `NewReq` copies its six arguments into the first six fields of the
returned request, sets `archive` to the sentinel `-2` (outside the
documented value range, where `-1` means original data), and zeroes the four
planning fields `rawInterval`, `archInterval`, `outInterval`, `aggNum`. -/
theorem NewReq_fields (key : String) (f t minPoints maxPoints : Nat) (c : Consolidator) :
    (NewReq key f t minPoints maxPoints c).key = key
    ∧ (NewReq key f t minPoints maxPoints c).«from» = f
    ∧ (NewReq key f t minPoints maxPoints c).«to» = t
    ∧ (NewReq key f t minPoints maxPoints c).minPoints = minPoints
    ∧ (NewReq key f t minPoints maxPoints c).maxPoints = maxPoints
    ∧ (NewReq key f t minPoints maxPoints c).consolidator = c
    ∧ (NewReq key f t minPoints maxPoints c).archive = -2
    ∧ (NewReq key f t minPoints maxPoints c).rawInterval = 0
    ∧ (NewReq key f t minPoints maxPoints c).archInterval = 0
    ∧ (NewReq key f t minPoints maxPoints c).outInterval = 0
    ∧ (NewReq key f t minPoints maxPoints c).aggNum = 0 :=
  ⟨rfl, rfl, rfl, rfl, rfl, rfl, rfl, rfl, rfl, rfl, rfl⟩

/-- C10: the span reported by the `String` method is `to - from - 1` in
32-bit unsigned arithmetic, i.e. congruent to `to - from - 1` modulo 2^32;
whenever `to <= from` it wraps to `2^32 - 1 - (from - to)`, and in
particular `to = from` reports 4294967295 seconds. -/
theorem spanSeconds_wraps (r : Req) (h1 : r.«from» < 4294967296) (h2 : r.«to» < 4294967296) :
    r.spanSeconds = (r.«to» + 4294967296 - r.«from» - 1) % 4294967296
    ∧ (r.«to» ≤ r.«from» → r.spanSeconds = 4294967295 - (r.«from» - r.«to»))
    ∧ (r.«to» = r.«from» → r.spanSeconds = 4294967295) := by
  unfold Req.spanSeconds u32sub u32
  omega

/-- Witness for C10 at a concrete request with `to = from = 7`: the reported
span wraps around to 4294967295. -/
theorem spanSeconds_wraps_w : (NewReq "a" 7 7 1 100 0).spanSeconds = 4294967295 :=
  (spanSeconds_wraps (NewReq "a" 7 7 1 100 0) (by decide) (by decide)).2.2 rfl

end MetricTank
